import Mathlib

/-!
Verification of the AI model scanner's job orchestration engine.

This file gives a shallow embedding, in Lean, of the core of the scanner
service: the data model (app/models.py), the policy evaluator and tool-result
shapes (app/scanner.py), the scan pipeline and artifact lookup
(app/job_manager.py, function _process_job and get_artifact_path), the
supported-extension tables (app/config.py) and the fragments of app/utils.py
the pipeline uses.  External tool executions and the filesystem are modelled
as oracles: each tool invocation is an input to the embedded pipeline, since
the Python code treats the tools as black boxes.

Concurrency is modelled as an interleaving transition system whose atomic
steps are the code regions between asyncio suspension points: the service is
a single-threaded asyncio program, so a block of plain (non-await) statements
executes atomically with respect to every other coroutine, and the states
other coroutines can observe are exactly the states at suspension points.
-/

/-! ## Data model (app/models.py) -/

/-- Embedding of models.JobStatus. -/
inductive JobStatus where
  | queued
  | running
  | succeeded
  | failed
deriving DecidableEq, Repr

/-- Embedding of models.JobOptions (output_format is presentation-only and
not used by the orchestration core, so it is omitted). -/
structure JobOptions where
  enable_picklescan : Bool := true
  strict_policy : Bool := true
  run_aisbom_on_fail : Bool := true
deriving DecidableEq, Repr

/-- Embedding of models.Finding.  The details map is tool-specific opaque
data never inspected by the orchestration core and is omitted. -/
structure Finding where
  tool : String
  severity : String
  message : String
deriving DecidableEq, Repr

/-- Embedding of models.ToolResult.  raw_output is opaque audit data never
inspected by the orchestration core and is omitted. -/
structure ToolResult where
  tool : String
  version : String
  exit_code : Int
  findings_count : Nat
  findings : List Finding
  error : Option String := none
deriving DecidableEq, Repr

/-- Embedding of models.ScanSummary.  Timestamps are abstract clock readings
(Nat); only their presence matters to the specification. -/
structure ScanSummary where
  job_id : String
  filename : String
  file_extension : String
  sha256 : String
  file_size : Nat
  started_at : Nat
  finished_at : Option Nat := none
  status : JobStatus
  pass_fail : Option String := none
  fail_reason : Option String := none
  tools_run : List String := []
  tool_versions : List (String × String) := []
  total_findings : Nat := 0
  findings_by_severity : List (String × Nat) := []
  findings_by_tool : List (String × Nat) := []
  top_findings : List Finding := []
  options : JobOptions := {}
deriving DecidableEq, Repr

/-! ## String helpers

Python's substring test (the "in" operator on str) and str.lower, embedded
over lists of characters.  Char.toLower agrees with Python str.lower on the
ASCII file extensions and tool names this program manipulates. -/

/-- True when the second list is an initial segment of the first. -/
def charListStartsWith : List Char → List Char → Bool
  | _, [] => true
  | [], _ :: _ => false
  | c :: cs, d :: ds => c == d && charListStartsWith cs ds

/-- True when the needle occurs contiguously somewhere in the hay. -/
def charListContainsSub (hay needle : List Char) : Bool :=
  match hay with
  | [] => charListStartsWith [] needle
  | _ :: t => charListStartsWith hay needle || charListContainsSub t needle

/-- Embedding of Python's substring test: strContainsSub hay needle is
(needle in hay) in Python. -/
def strContainsSub (hay needle : String) : Bool :=
  charListContainsSub hay.toList needle.toList

/-- Embedding of Python str.lower restricted to the ASCII data this program
handles. -/
def lowerStr (s : String) : String := String.mk (s.toList.map Char.toLower)

/-! ## Configuration tables (app/config.py) -/

/-- Embedding of Config.PICKLE_EXTENSIONS. -/
def PICKLE_EXTENSIONS : List String :=
  [".pkl", ".pickle", ".pt", ".pth", ".bin", ".joblib"]

/-- Embedding of Config.SUPPORTED_EXTENSIONS. -/
def SUPPORTED_EXTENSIONS : List String :=
  [".pkl", ".pickle", ".pt", ".pth", ".bin", ".joblib",
   ".h5", ".hdf5", ".keras", ".onnx", ".safetensors",
   ".gguf", ".pb", ".tflite", ".mlmodel"]

/-! ## Filename helpers (app/utils.py) -/

/-- Position of the last dot in a character list, if any. -/
def lastDotPos (cs : List Char) : Option Nat :=
  match cs with
  | [] => none
  | c :: rest =>
    match lastDotPos rest with
    | some i => some (i + 1)
    | none => if c == '.' then some 0 else none

/-- Embedding of pathlib's suffix on a file name component (pathlib: the
dot must be neither the first nor the last character of the name).  Callers
in the modelled code paths pass base names with no directory separator. -/
def pathSuffix (filename : String) : String :=
  let cs := filename.toList
  match lastDotPos cs with
  | none => ""
  | some i => if 0 < i ∧ i < cs.length - 1 then String.mk (cs.drop i) else ""

/-- Embedding of utils.get_file_extension. -/
def get_file_extension (filename : String) : String := lowerStr (pathSuffix filename)

/-- Embedding of utils.is_pickle_format. -/
def is_pickle_format (filename : String) : Bool :=
  PICKLE_EXTENSIONS.contains (get_file_extension filename)

/-! ## Policy evaluator (app/scanner.py, evaluate_policy) -/

/-- Reason strings contributed by the HIGH/CRITICAL findings of one tool
result, in finding order (the inner loop of evaluate_policy). -/
def findingReasons (tool : String) (findings : List Finding) : List String :=
  findings.filterMap (fun f =>
    if f.severity == "HIGH" || f.severity == "CRITICAL" then
      some (tool ++ ": " ++ f.severity ++ " - " ++ f.message)
    else none)

/-- The ModelScan exit-code check of evaluate_policy: append the generic
reason when the result is ModelScan with exit code 1 and no reason collected
so far contains the substring "modelscan". -/
def exitReasonStepMS (rs : List String) (result : ToolResult) : List String :=
  if result.tool == "modelscan" && result.exit_code == 1 &&
      !(rs.any (fun r => strContainsSub r "modelscan")) then
    rs ++ ["ModelScan found vulnerabilities"]
  else rs

/-- The Picklescan exit-code check of evaluate_policy: append the generic
reason when the result is Picklescan with exit code 1 and no reason collected
so far contains the substring "picklescan". -/
def exitReasonStepPS (rs : List String) (result : ToolResult) : List String :=
  if result.tool == "picklescan" && result.exit_code == 1 &&
      !(rs.any (fun r => strContainsSub r "picklescan")) then
    rs ++ ["Picklescan detected malware"]
  else rs

/-- One iteration of evaluate_policy's outer loop: fold one tool result into
the accumulated fail_reasons list (findings first, then the two exit-code
checks, exactly in source order). -/
def processResult (fail_reasons : List String) (result : ToolResult) : List String :=
  if result.tool == "modelscan" || result.tool == "picklescan" then
    exitReasonStepPS
      (exitReasonStepMS (fail_reasons ++ findingReasons result.tool result.findings) result)
      result
  else fail_reasons

/-- The fail_reasons list accumulated by evaluate_policy's loop. -/
def collectFailReasons (results : List ToolResult) : List String :=
  results.foldl processResult []

/-- Embedding of scanner.evaluate_policy. -/
def evaluate_policy (results : List ToolResult) (strict_policy : Bool) :
    String × Option String :=
  if !strict_policy then ("PASS", none)
  else
    let fail_reasons := collectFailReasons results
    if fail_reasons.isEmpty then ("PASS", none)
    else ("FAIL", some (String.intercalate "; " (fail_reasons.take 5)))

example :
    evaluate_policy
      [{ tool := "modelscan", version := "v", exit_code := 1, findings_count := 1,
         findings := [{ tool := "modelscan", severity := "HIGH", message := "bad" }] }]
      true = ("FAIL", some "modelscan: HIGH - bad") := by decide

example :
    evaluate_policy
      [{ tool := "modelscan", version := "v", exit_code := 1, findings_count := 0,
         findings := [] },
       { tool := "modelscan", version := "v", exit_code := 1, findings_count := 0,
         findings := [] }]
      true =
      ("FAIL", some "ModelScan found vulnerabilities; ModelScan found vulnerabilities") := by
  decide

example :
    evaluate_policy
      [{ tool := "aisbom", version := "1.0.0", exit_code := 0, findings_count := 1,
         findings := [{ tool := "aisbom", severity := "CRITICAL", message := "x" }] }]
      true = ("PASS", none) := by decide

/-! ## Ordered-dictionary helpers

Python dict assignment d[k] = v keeps the position of an existing key and
appends a new key at the end; these embed that behaviour on association
lists. -/

/-- Python dict assignment d[k] = v on an association list. -/
def upsertD {β : Type} : List (String × β) → String → β → List (String × β)
  | [], k, v => [(k, v)]
  | p :: rest, k, v => if p.1 = k then (k, v) :: rest else p :: upsertD rest k v

/-- Python dict lookup d.get(k) on an association list. -/
def lookupD {β : Type} : List (String × β) → String → Option β
  | [], _ => none
  | p :: rest, k => if p.1 = k then some p.2 else lookupD rest k

/-- Embedding of severity_counts[sev] = severity_counts.get(sev, 0) + 1. -/
def dictIncr : List (String × Nat) → String → List (String × Nat)
  | [], k => [(k, 1)]
  | p :: rest, k => if p.1 = k then (p.1, p.2 + 1) :: rest else p :: dictIncr rest k

/-- Sum of the values of a counter dictionary. -/
def dictSum (d : List (String × Nat)) : Nat := (d.map Prod.snd).sum

/-! ## Tool runner results (app/scanner.py)

run_modelscan, run_picklescan and generate_ai_sbom execute external work and
are modelled as oracles producing a ToolOutput; every return path of each of
those functions builds a ToolResult whose tool field is the fixed tool name
and whose findings_count equals the length of its findings list, which
mkToolResult reproduces. -/

/-- Oracle data for one tool invocation: everything the external execution
determines. -/
structure ToolOutput where
  version : String
  exit_code : Int
  findings : List Finding
  error : Option String := none
deriving DecidableEq, Repr

/-- ToolResult construction shared by every return path of the tool runner
functions in app/scanner.py. -/
def mkToolResult (tool : String) (o : ToolOutput) : ToolResult :=
  { tool := tool, version := o.version, exit_code := o.exit_code,
    findings_count := o.findings.length, findings := o.findings, error := o.error }

/-! ## Scan pipeline (app/job_manager.py, JobManager._process_job) -/

/-- Identity data of a job fixed by create_job before the pipeline runs. -/
structure JobMeta where
  job_id : String
  filename : String
  file_extension : String
  sha256 : String
  file_size : Nat
  started_at : Nat
deriving DecidableEq, Repr

/-- The initial summary built by JobManager.create_job (status QUEUED, all
result fields at their model defaults). -/
def initialSummary (m : JobMeta) (options : JobOptions) : ScanSummary :=
  { job_id := m.job_id, filename := m.filename, file_extension := m.file_extension,
    sha256 := m.sha256, file_size := m.file_size, started_at := m.started_at,
    status := JobStatus.queued, options := options }

/-- Environment of one _process_job run: the member file names present in
the job's upload directory and the oracle outputs of the external tools
(indexed by position in the filtered model-file list). -/
structure PipelineEnv where
  files : List String
  options : JobOptions
  modelscanOut : Nat → ToolOutput
  picklescanOut : Nat → ToolOutput
  aisbomOut : ToolOutput
  finish_time : Nat

/-- Loop body of _process_job's per-file scan loop: run ModelScan on the
file, then Picklescan when enabled and the file is pickle format, recording
tools_run and tool_versions on first occurrence and accumulating per-tool
finding totals. -/
def scanOneFile (env : PipelineEnv)
    (st : ScanSummary × List ToolResult × Nat × Nat) (entry : Nat × String) :
    ScanSummary × List ToolResult × Nat × Nat :=
  let summary := st.1
  let results := st.2.1
  let tms := st.2.2.1
  let tps := st.2.2.2
  let i := entry.1
  let name := entry.2
  let msr := mkToolResult "modelscan" (env.modelscanOut i)
  let results := results ++ [msr]
  let tms := tms + msr.findings_count
  let summary :=
    if i == 0 then
      { summary with tools_run := summary.tools_run ++ ["modelscan"],
                     tool_versions := upsertD summary.tool_versions "modelscan" msr.version }
    else summary
  if env.options.enable_picklescan && is_pickle_format name then
    let psr := mkToolResult "picklescan" (env.picklescanOut i)
    let results := results ++ [psr]
    let tps := tps + psr.findings_count
    let summary :=
      if summary.tools_run.contains "picklescan" then summary
      else
        { summary with tools_run := summary.tools_run ++ ["picklescan"],
                       tool_versions := upsertD summary.tool_versions "picklescan" psr.version }
    (summary, results, tms, tps)
  else (summary, results, tms, tps)

/-- The ordered aggregate of all findings of all tool results (the
all_findings list of _process_job). -/
def allFindings (results : List ToolResult) : List Finding :=
  results.foldl (fun acc r => acc ++ r.findings) []

/-- The severity_counts dictionary of _process_job. -/
def severityCounts (results : List ToolResult) : List (String × Nat) :=
  results.foldl (fun d r => r.findings.foldl (fun d' f => dictIncr d' f.severity) d) []

/-- The member files of the job that survive _process_job's filter by the
supported-extension allowlist. -/
def filteredFiles (env : PipelineEnv) : List String :=
  env.files.filter (fun n => SUPPORTED_EXTENSIONS.contains (get_file_extension n))

/-- The per-file scan loop of _process_job, started on the RUNNING summary
with no results and zero per-tool totals. -/
def scanPhase (env : PipelineEnv) (m : JobMeta) :
    ScanSummary × List ToolResult × Nat × Nat :=
  ((filteredFiles env).enum).foldl (scanOneFile env)
    ({ initialSummary m env.options with status := JobStatus.running }, [], 0, 0)

/-- Embedding of JobManager._process_job on a job freshly created by
create_job: returns the final summary together with the ToolResult records
the run produced.  Failure of the whole pipeline for a job with no matching
member files goes through _fail_job with reason "No model files found". -/
def processJob (env : PipelineEnv) (m : JobMeta) : ScanSummary × List ToolResult :=
  let summary0 := initialSummary m env.options
  let summary := { summary0 with status := JobStatus.running }
  let model_files := filteredFiles env
  if model_files.isEmpty then
    ({ summary with status := JobStatus.failed, finished_at := some env.finish_time,
                    fail_reason := some "No model files found" }, [])
  else
    let looped := scanPhase env m
    let summary := looped.1
    let results := looped.2.1
    let tms := looped.2.2.1
    let tps := looped.2.2.2
    let summary :=
      { summary with findings_by_tool := upsertD summary.findings_by_tool "modelscan" tms }
    let summary :=
      if tps > 0 || summary.tools_run.contains "picklescan" then
        { summary with findings_by_tool := upsertD summary.findings_by_tool "picklescan" tps }
      else summary
    let pf := evaluate_policy results env.options.strict_policy
    let summary := { summary with pass_fail := some pf.1, fail_reason := pf.2 }
    let withSbom :=
      if pf.1 == "PASS" || env.options.run_aisbom_on_fail then
        let ar := mkToolResult "aisbom" env.aisbomOut
        ({ summary with tools_run := summary.tools_run ++ ["aisbom"],
                        tool_versions := upsertD summary.tool_versions "aisbom" ar.version,
                        findings_by_tool := upsertD summary.findings_by_tool "aisbom" ar.findings_count },
         results ++ [ar])
      else (summary, results)
    let summary := withSbom.1
    let results := withSbom.2
    let summary :=
      { summary with total_findings := (allFindings results).length,
                     findings_by_severity := severityCounts results,
                     top_findings := (allFindings results).take 20 }
    ({ summary with finished_at := some env.finish_time,
                    status := if pf.1 == "PASS" then JobStatus.succeeded else JobStatus.failed },
     results)

/-! ## Artifact lookup (app/job_manager.py, JobManager.get_artifact_path)

The filesystem is modelled as the list of existing regular files, each a
path given as its list of name segments from the filesystem root.  The
artifact name is joined below the job's results directory as one further
segment, which is exact because the name is only used after the check that
it contains no directory separator. -/

/-- Embedding of config.RESULTS_DIR (/data/results) as path segments. -/
def RESULTS_DIR : List String := ["data", "results"]

/-- Embedding of JobManager.get_artifact_path over a filesystem fs of
existing regular files. -/
def get_artifact_path (fs : List (List String)) (job_id artifact_name : String) :
    Option (List String) :=
  if strContainsSub artifact_name ".." || strContainsSub artifact_name "/" then none
  else
    let artifact_path := RESULTS_DIR ++ [job_id, artifact_name]
    if fs.contains artifact_path then some artifact_path else none

example :
    get_artifact_path [["data", "results", "j1", "summary.json"]] "j1" "summary.json" =
      some ["data", "results", "j1", "summary.json"] := by decide

example :
    get_artifact_path [["data", "results", "j1", "summary.json"]] "j1" "../j2/summary.json" =
      none := by decide

/-! ## Job scheduler (app/job_manager.py, JobManager worker pool)

The scheduler is modelled as an interleaving transition system.  A state
holds the FIFO queue of job identifiers (asyncio.Queue), the ordered job
index (self.jobs), the worker pool, and the ghost set of identifiers ever
issued (uuid4 never repeats an identifier, which the submit step's freshness
hypothesis reflects).  Each step is one atomic region of the asyncio program
between suspension points:

- submit: create_job / create_mounted_model_job registers a QUEUED summary
  and enqueues the fresh identifier.
- dequeue: an idle worker returns from queue.get with the head identifier.
- markRunning: the worker's _process_job call finds the summary and sets its
  status to RUNNING (jobs.get succeeded, so the entry must exist).
- finishJob: the worker's processing of the job ends, writing a terminal
  status and releasing the worker; the write goes through _save_summary,
  which re-inserts the entry if it was deleted while the worker held it.
- releaseMissing: _process_job found no summary (the job was deleted before
  processing started) and returned without touching the index.
- deleteJob: delete_job removes the entry from the index (the queue is not
  touched, matching the code).
-/

/-- State of one worker task: blocked on the queue, or processing a job. -/
inductive WStatus where
  | idle
  | busy (id : String)
deriving DecidableEq, Repr

/-- Identifiers of the jobs currently being processed by some worker. -/
def busyIds (ws : List WStatus) : List String :=
  ws.filterMap (fun w => match w with | .idle => none | .busy id => some id)

/-- Scheduler state: queue, job index, worker pool, and ghost identifier
history. -/
structure SchedState where
  queue : List String
  jobs : List (String × JobStatus)
  workers : List WStatus
  used : List String
deriving Repr

/-- Startup state: start_workers launched W workers, and _load_existing_jobs
recovered the job index R from the summary documents on disk; nothing is
enqueued. -/
def initSched (W : Nat) (R : List (String × JobStatus)) : SchedState :=
  { queue := [], jobs := R, workers := List.replicate W WStatus.idle,
    used := R.map Prod.fst }

/-- One atomic step of the scheduler between asyncio suspension points. -/
inductive SchedStep : SchedState → SchedState → Prop
  | submit (s : SchedState) (id : String) (h : id ∉ s.used) :
      SchedStep s ⟨s.queue ++ [id], upsertD s.jobs id JobStatus.queued,
                   s.workers, s.used ++ [id]⟩
  | dequeue (s : SchedState) (w : Nat) (id : String) (rest : List String)
      (hq : s.queue = id :: rest) (hw : s.workers[w]? = some WStatus.idle) :
      SchedStep s ⟨rest, s.jobs, s.workers.set w (WStatus.busy id), s.used⟩
  | markRunning (s : SchedState) (w : Nat) (id : String) (st : JobStatus)
      (hw : s.workers[w]? = some (WStatus.busy id))
      (hs : lookupD s.jobs id = some st) :
      SchedStep s ⟨s.queue, upsertD s.jobs id JobStatus.running, s.workers, s.used⟩
  | finishJob (s : SchedState) (w : Nat) (id : String) (t : JobStatus)
      (hw : s.workers[w]? = some (WStatus.busy id))
      (ht : t = JobStatus.succeeded ∨ t = JobStatus.failed) :
      SchedStep s ⟨s.queue, upsertD s.jobs id t, s.workers.set w WStatus.idle, s.used⟩
  | releaseMissing (s : SchedState) (w : Nat) (id : String)
      (hw : s.workers[w]? = some (WStatus.busy id))
      (hs : lookupD s.jobs id = none) :
      SchedStep s ⟨s.queue, s.jobs, s.workers.set w WStatus.idle, s.used⟩
  | deleteJob (s : SchedState) (id : String) :
      SchedStep s ⟨s.queue, s.jobs.filter (fun p => !(p.1 == id)), s.workers, s.used⟩

/-- Reachability of scheduler states. -/
def SchedReach : SchedState → SchedState → Prop := Relation.ReflTransGen SchedStep

/-- Number of jobs whose status in the index is RUNNING. -/
def countRunningJobs (s : SchedState) : Nat :=
  (s.jobs.filter (fun p => p.2 == JobStatus.running)).length

/-! ## Observable job-record lifecycle (app/job_manager.py)

The states of one job's summary record that other coroutines can observe:
each step is one atomic mutation region of create_job, _process_job,
_fail_job or the final write, between asyncio suspension points.  The ghost
flag policyEvaluated records whether _process_job's call to evaluate_policy
has run for this job.  The step preconditions on the status field reflect
the scheduler: a job identifier is enqueued exactly once, so _process_job
runs at most once per job, starting from the QUEUED record create_job made.
-/

/-- A job record together with the ghost policy-evaluation flag. -/
structure JobObs where
  summary : ScanSummary
  policyEvaluated : Bool
deriving DecidableEq, Repr

/-- The observable record of a freshly created job. -/
def initJobObs (m : JobMeta) (options : JobOptions) : JobObs :=
  { summary := initialSummary m options, policyEvaluated := false }

/-- One observable transition of a job's summary record. -/
inductive JobStep : JobObs → JobObs → Prop
  | start (o : JobObs) (h : o.summary.status = JobStatus.queued) :
      JobStep o ⟨{ o.summary with status := JobStatus.running }, o.policyEvaluated⟩
  | scanUpdate (o : JobObs) (h : o.summary.status = JobStatus.running)
      (hp : o.policyEvaluated = false)
      (tr : List String) (tv : List (String × String)) (fbt : List (String × Nat)) :
      JobStep o ⟨{ o.summary with tools_run := tr, tool_versions := tv,
                                  findings_by_tool := fbt }, false⟩
  | failJob (o : JobObs) (h : o.summary.status = JobStatus.running)
      (hp : o.policyEvaluated = false) (e : String) (t : Nat) :
      JobStep o ⟨{ o.summary with status := JobStatus.failed, finished_at := some t,
                                  fail_reason := some e }, false⟩
  | policyEval (o : JobObs) (h : o.summary.status = JobStatus.running)
      (hp : o.policyEvaluated = false)
      (results : List ToolResult) (strict : Bool) :
      JobStep o ⟨{ o.summary with pass_fail := some (evaluate_policy results strict).1,
                                  fail_reason := (evaluate_policy results strict).2 }, true⟩
  | postPolicyUpdate (o : JobObs) (h : o.summary.status = JobStatus.running)
      (hp : o.policyEvaluated = true)
      (tr : List String) (tv : List (String × String)) (fbt : List (String × Nat))
      (tot : Nat) (fbs : List (String × Nat)) (top : List Finding) :
      JobStep o ⟨{ o.summary with tools_run := tr, tool_versions := tv,
                                  findings_by_tool := fbt, total_findings := tot,
                                  findings_by_severity := fbs, top_findings := top }, true⟩
  | failLate (o : JobObs) (h : o.summary.status = JobStatus.running)
      (hp : o.policyEvaluated = true) (e : String) (t : Nat) :
      JobStep o ⟨{ o.summary with status := JobStatus.failed, finished_at := some t,
                                  fail_reason := some e }, true⟩
  | finalize (o : JobObs) (h : o.summary.status = JobStatus.running)
      (hp : o.policyEvaluated = true) (v : String)
      (hv : o.summary.pass_fail = some v) (t : Nat) :
      JobStep o ⟨{ o.summary with
                     finished_at := some t,
                     status := if v == "PASS" then JobStatus.succeeded
                               else JobStatus.failed }, true⟩

/-- Reachability between observable job records. -/
def JobReach : JobObs → JobObs → Prop := Relation.ReflTransGen JobStep

/-- Rank of a status in the lifecycle order QUEUED, RUNNING, terminal. -/
def statusRank : JobStatus → Nat
  | JobStatus.queued => 0
  | JobStatus.running => 1
  | JobStatus.succeeded => 2
  | JobStatus.failed => 2

/-- The record invariant of claim C2: finished_at is present exactly on
terminal records, pass_fail is present exactly once policy evaluation has
run, and a failure before policy evaluation set fail_reason and left
pass_fail absent. -/
def C2Inv (o : JobObs) : Prop :=
  (o.summary.finished_at.isSome = true ↔
    (o.summary.status = JobStatus.succeeded ∨ o.summary.status = JobStatus.failed))
  ∧ (o.summary.pass_fail.isSome = true ↔ o.policyEvaluated = true)
  ∧ (o.summary.status = JobStatus.failed ∧ o.policyEvaluated = false →
      o.summary.pass_fail = none ∧ o.summary.fail_reason.isSome = true)

/-! ## Triggering conditions of the strict policy

Declarative descriptions of the strict policy's triggering conditions, used
to state the policy claims independently of the loop that collects reason
strings. -/

/-- A tool result carries a triggering condition of the strict policy: it
comes from one of the two scanners and has a HIGH or CRITICAL finding or the
failure exit code 1. -/
def triggerR (r : ToolResult) : Bool :=
  (r.tool == "modelscan" || r.tool == "picklescan") &&
    (r.findings.any (fun f => f.severity == "HIGH" || f.severity == "CRITICAL") ||
     r.exit_code == 1)

/-- Some tool result carries a triggering condition of the strict policy. -/
def hasTriggerCondition (results : List ToolResult) : Bool :=
  results.any triggerR

/-- Modelled from the spec's words for comparison with the code (claim C5):
the number of distinct triggering conditions, counting each HIGH or CRITICAL
scanner finding as one condition and each failure exit code from a scanner
as one condition. -/
def numTriggerConditionsC5 (results : List ToolResult) : Nat :=
  results.foldl (fun n r =>
    if r.tool == "modelscan" || r.tool == "picklescan" then
      n + (r.findings.filter
            (fun f => f.severity == "HIGH" || f.severity == "CRITICAL")).length
        + (if r.exit_code == 1 then 1 else 0)
    else n) 0

/-! ## Lemmas about the policy evaluator -/

lemma length_le_exitReasonStepMS (rs : List String) (r : ToolResult) :
    rs.length ≤ (exitReasonStepMS rs r).length := by
  unfold exitReasonStepMS; split_ifs <;> simp

lemma length_le_exitReasonStepPS (rs : List String) (r : ToolResult) :
    rs.length ≤ (exitReasonStepPS rs r).length := by
  unfold exitReasonStepPS; split_ifs <;> simp

lemma exitReasonStepMS_ne_nil (rs : List String) (r : ToolResult) (h : rs ≠ []) :
    exitReasonStepMS rs r ≠ [] := by
  unfold exitReasonStepMS; split_ifs <;> simp [h]

lemma exitReasonStepPS_ne_nil (rs : List String) (r : ToolResult) (h : rs ≠ []) :
    exitReasonStepPS rs r ≠ [] := by
  unfold exitReasonStepPS; split_ifs <;> simp [h]

lemma exitReasonStepMS_no_exit (rs : List String) (r : ToolResult)
    (h : (r.exit_code == 1) = false) : exitReasonStepMS rs r = rs := by
  unfold exitReasonStepMS; simp [h]

lemma exitReasonStepPS_no_exit (rs : List String) (r : ToolResult)
    (h : (r.exit_code == 1) = false) : exitReasonStepPS rs r = rs := by
  unfold exitReasonStepPS; simp [h]

lemma length_le_processResult (acc : List String) (r : ToolResult) :
    acc.length ≤ (processResult acc r).length := by
  unfold processResult
  split_ifs with h
  · calc acc.length ≤ (acc ++ findingReasons r.tool r.findings).length := by simp
    _ ≤ (exitReasonStepMS (acc ++ findingReasons r.tool r.findings) r).length :=
        length_le_exitReasonStepMS _ _
    _ ≤ _ := length_le_exitReasonStepPS _ _
  · exact Nat.le_refl _

lemma findingReasons_ne_nil (tool : String) (fs : List Finding)
    (h : (fs.any (fun f => f.severity == "HIGH" || f.severity == "CRITICAL")) = true) :
    findingReasons tool fs ≠ [] := by
  rcases List.any_eq_true.mp h with ⟨f, hf, hp⟩
  apply List.ne_nil_of_mem (a := tool ++ ": " ++ f.severity ++ " - " ++ f.message)
  unfold findingReasons
  exact List.mem_filterMap.mpr ⟨f, hf, by simp [hp]⟩

lemma exitReasonStepMS_ne_nil_ms (rs : List String) (r : ToolResult)
    (h1 : (r.tool == "modelscan") = true) (h2 : (r.exit_code == 1) = true) :
    exitReasonStepMS rs r ≠ [] := by
  unfold exitReasonStepMS
  split_ifs with hc
  · simp
  · have hany : (rs.any (fun x => strContainsSub x "modelscan")) = true := by
      by_contra hb
      have hb' : (rs.any (fun x => strContainsSub x "modelscan")) = false := by
        revert hb; cases rs.any (fun x => strContainsSub x "modelscan") <;> simp
      exact hc (by simp [h1, h2, hb'])
    rcases List.any_eq_true.mp hany with ⟨x, hx, _⟩
    exact List.ne_nil_of_mem hx

lemma exitReasonStepPS_ne_nil_ps (rs : List String) (r : ToolResult)
    (h1 : (r.tool == "picklescan") = true) (h2 : (r.exit_code == 1) = true) :
    exitReasonStepPS rs r ≠ [] := by
  unfold exitReasonStepPS
  split_ifs with hc
  · simp
  · have hany : (rs.any (fun x => strContainsSub x "picklescan")) = true := by
      by_contra hb
      have hb' : (rs.any (fun x => strContainsSub x "picklescan")) = false := by
        revert hb; cases rs.any (fun x => strContainsSub x "picklescan") <;> simp
      exact hc (by simp [h1, h2, hb'])
    rcases List.any_eq_true.mp hany with ⟨x, hx, _⟩
    exact List.ne_nil_of_mem hx

lemma processResult_no_trigger (acc : List String) (r : ToolResult)
    (h : triggerR r = false) : processResult acc r = acc := by
  unfold processResult
  split_ifs with hs
  · have hcd : (r.findings.any (fun f => f.severity == "HIGH" || f.severity == "CRITICAL") ||
        r.exit_code == 1) = false := by
      unfold triggerR at h
      rw [hs] at h
      simpa using h
    have hc := (Bool.or_eq_false_iff.mp hcd).1
    have hd := (Bool.or_eq_false_iff.mp hcd).2
    have hfr : findingReasons r.tool r.findings = [] := by
      unfold findingReasons
      apply List.filterMap_eq_nil_iff.mpr
      intro f hf
      have : (f.severity == "HIGH" || f.severity == "CRITICAL") = false := by
        have := List.any_eq_false.mp hc f hf
        revert this
        cases f.severity == "HIGH" || f.severity == "CRITICAL" <;> simp
      simp [this]
    rw [hfr, List.append_nil, exitReasonStepMS_no_exit _ _ hd, exitReasonStepPS_no_exit _ _ hd]
  · rfl

lemma processResult_trigger_ne_nil (acc : List String) (r : ToolResult)
    (h : triggerR r = true) : processResult acc r ≠ [] := by
  unfold triggerR at h
  obtain ⟨hs, hcd⟩ := (Bool.and_eq_true _ _).mp h
  unfold processResult
  split_ifs
  rcases Bool.or_eq_true_iff.mp hcd with hany | hexit
  · apply exitReasonStepPS_ne_nil
    apply exitReasonStepMS_ne_nil
    intro hnil
    exact findingReasons_ne_nil r.tool r.findings hany (List.append_eq_nil.mp hnil).2
  · rcases Bool.or_eq_true_iff.mp hs with hms | hps
    · exact exitReasonStepPS_ne_nil _ _ (exitReasonStepMS_ne_nil_ms _ _ hms hexit)
    · exact exitReasonStepPS_ne_nil_ps _ _ hps hexit

lemma foldl_processResult_eq_nil_iff (results : List ToolResult) :
    ∀ acc : List String,
      List.foldl processResult acc results = [] ↔
        acc = [] ∧ ∀ r ∈ results, triggerR r = false := by
  induction results with
  | nil => intro acc; simp
  | cons r rs ih =>
    intro acc
    rw [List.foldl_cons, ih]
    constructor
    · rintro ⟨h1, h2⟩
      have hacc : acc = [] := by
        have hle := length_le_processResult acc r
        rw [h1] at hle
        simp at hle
        exact hle
      have htr : triggerR r = false := by
        by_contra hb
        have hb' : triggerR r = true := by revert hb; cases triggerR r <;> simp
        exact processResult_trigger_ne_nil acc r hb' h1
      subst hacc
      refine ⟨rfl, ?_⟩
      intro x hx
      rcases List.mem_cons.mp hx with hx | hx
      · rw [hx]; exact htr
      · exact h2 x hx
    · rintro ⟨ha, hall⟩
      subst ha
      rw [processResult_no_trigger [] r (hall r (List.mem_cons_self r rs))]
      exact ⟨rfl, fun x hx => hall x (List.mem_cons_of_mem r hx)⟩

lemma collectFailReasons_eq_nil_iff (results : List ToolResult) :
    collectFailReasons results = [] ↔ hasTriggerCondition results = false := by
  unfold collectFailReasons hasTriggerCondition
  rw [foldl_processResult_eq_nil_iff]
  simp [List.any_eq_false]

/-! ## Aggregation lemmas (for the severity-count claims) -/

lemma dictSum_dictIncr (d : List (String × Nat)) (k : String) :
    dictSum (dictIncr d k) = dictSum d + 1 := by
  induction d with
  | nil => simp [dictIncr, dictSum]
  | cons p rest ih =>
    unfold dictIncr
    split_ifs with h
    · simp [dictSum]
      omega
    · simp [dictSum] at ih ⊢
      omega

lemma dictSum_foldl_sev (fs : List Finding) :
    ∀ d, dictSum (fs.foldl (fun d' f => dictIncr d' f.severity) d) = dictSum d + fs.length := by
  induction fs with
  | nil => intro d; simp
  | cons f fs ih =>
    intro d
    rw [List.foldl_cons, ih, dictSum_dictIncr]
    simp only [List.length_cons]
    omega

lemma dictSum_severityCounts_aux (rs : List ToolResult) :
    ∀ d, dictSum (rs.foldl
        (fun d' r => r.findings.foldl (fun d'' f => dictIncr d'' f.severity) d') d) =
      dictSum d + (rs.map (fun r => r.findings.length)).sum := by
  induction rs with
  | nil => intro d; simp
  | cons r rs ih =>
    intro d
    rw [List.foldl_cons, ih, dictSum_foldl_sev]
    simp [Nat.add_assoc]

lemma allFindings_acc (rs : List ToolResult) :
    ∀ acc : List Finding, rs.foldl (fun a r => a ++ r.findings) acc = acc ++ allFindings rs := by
  induction rs with
  | nil => intro acc; simp [allFindings]
  | cons r rs ih =>
    intro acc
    rw [List.foldl_cons, ih]
    conv_rhs => rw [allFindings, List.foldl_cons, ih]
    simp

lemma length_allFindings (rs : List ToolResult) :
    (allFindings rs).length = (rs.map (fun r => r.findings.length)).sum := by
  induction rs with
  | nil => simp [allFindings]
  | cons r rs ih =>
    rw [allFindings, List.foldl_cons, allFindings_acc]
    simp [ih]

lemma dictSum_severityCounts (rs : List ToolResult) :
    dictSum (severityCounts rs) = (allFindings rs).length := by
  rw [severityCounts, dictSum_severityCounts_aux, length_allFindings]
  simp [dictSum]

/-! ## Pipeline lemmas -/

lemma processResult_aisbom (rs : List String) (o : ToolOutput) :
    processResult rs (mkToolResult "aisbom" o) = rs := by
  have h1 : ((("aisbom" : String) == "modelscan") || (("aisbom" : String) == "picklescan")) =
      false := by decide
  simp [processResult, mkToolResult, h1]

lemma collectFailReasons_append_aisbom (results : List ToolResult) (o : ToolOutput) :
    collectFailReasons (results ++ [mkToolResult "aisbom" o]) = collectFailReasons results := by
  unfold collectFailReasons
  rw [List.foldl_append]
  simp [processResult_aisbom]

lemma processJob_pass_fail (env : PipelineEnv) (m : JobMeta) :
    (processJob env m).1.pass_fail =
      if (filteredFiles env).isEmpty then none
      else some (evaluate_policy (scanPhase env m).2.1 env.options.strict_policy).1 := by
  by_cases h : (filteredFiles env).isEmpty = true
  · simp [processJob, h, initialSummary]
  · have h' : (filteredFiles env).isEmpty = false := by
      revert h; cases (filteredFiles env).isEmpty <;> simp
    simp only [processJob, h', Bool.false_eq_true, if_false]
    split_ifs <;> rfl

/-! ## Claim theorems: the policy evaluator -/

/-- C4: the policy evaluator is a pure deterministic function — identical
(results, strict) inputs always yield the identical (verdict, reason) output
— and for every list of tool results whatsoever, lenient mode (strict false)
returns PASS with an absent reason. -/
theorem evaluate_policy_pure_lenient_pass :
    (∀ (results : List ToolResult) (strict_policy : Bool),
        evaluate_policy results strict_policy = evaluate_policy results strict_policy)
    ∧ (∀ results : List ToolResult, evaluate_policy results false = ("PASS", none)) :=
  ⟨fun _ _ => rfl, fun _ => by simp [evaluate_policy]⟩

/-- Concrete ModelScan result carrying two distinct triggering conditions:
one HIGH finding and the failure exit code 1. -/
def msHighExit1 : ToolResult :=
  { tool := "modelscan", version := "v", exit_code := 1, findings_count := 1,
    findings := [{ tool := "modelscan", severity := "HIGH", message := "bad" }] }

/-- C5 counterexample: a single ModelScan result with one HIGH finding and
exit code 1 carries two distinct triggering conditions, yet only one reason
string is collected — the exit-code condition does not become a reason
because an already-collected reason contains the substring "modelscan" — so
it is not the case that each distinct triggering condition becomes one
reason string. -/
theorem evaluate_policy_reason_count_counterexample :
    numTriggerConditionsC5 [msHighExit1] = 2 ∧
    (collectFailReasons [msHighExit1]).length = 1 ∧
    evaluate_policy [msHighExit1] true = ("FAIL", some "modelscan: HIGH - bad") := by
  decide

/-- C5 (amended): under strict policy, evaluate_policy returns FAIL exactly
when some scanner result carries a triggering condition (a HIGH or CRITICAL
finding, or exit code 1); triggering conditions contribute reason strings in
collection order, except that a scanner's exit-code reason is suppressed
when an already-collected reason contains that scanner's lowercase name as a
substring; the returned reason is the first five collected reasons joined,
truncated with no indicator when more than five exist. -/
theorem evaluate_policy_strict_characterization (results : List ToolResult) :
    evaluate_policy results true =
      if hasTriggerCondition results then
        ("FAIL", some (String.intercalate "; " ((collectFailReasons results).take 5)))
      else ("PASS", none) := by
  by_cases h : hasTriggerCondition results = true
  · have hne : ¬ collectFailReasons results = [] := by
      rw [collectFailReasons_eq_nil_iff]
      simp [h]
    have hEmpty : (collectFailReasons results).isEmpty = false := by
      revert hne
      cases collectFailReasons results <;> simp
    simp [evaluate_policy, hEmpty, h]
  · have hf : hasTriggerCondition results = false := by
      revert h; cases hasTriggerCondition results <;> simp
    have hnil : collectFailReasons results = [] := (collectFailReasons_eq_nil_iff results).mpr hf
    simp [evaluate_policy, hnil, hf]

/-! ## Claim theorems: the scan pipeline -/

/-- C6: SBOM findings never influence the verdict — evaluate_policy ignores
any appended aisbom result, the job's persisted verdict equals the policy
evaluation of exactly the scanner results collected before SBOM generation,
and the verdict is identical for any two SBOM oracle outcomes whatsoever. -/
theorem sbom_findings_never_affect_verdict :
    (∀ (results : List ToolResult) (strict : Bool) (o : ToolOutput),
        evaluate_policy (results ++ [mkToolResult "aisbom" o]) strict =
          evaluate_policy results strict)
    ∧ (∀ (env : PipelineEnv) (m : JobMeta),
        (processJob env m).1.pass_fail =
          if (filteredFiles env).isEmpty then none
          else some (evaluate_policy (scanPhase env m).2.1 env.options.strict_policy).1)
    ∧ (∀ (env : PipelineEnv) (m : JobMeta) (o o' : ToolOutput),
        (processJob { env with aisbomOut := o } m).1.pass_fail =
          (processJob { env with aisbomOut := o' } m).1.pass_fail) := by
  refine ⟨?_, ?_, ?_⟩
  · intro results strict o
    cases strict with
    | false => simp [evaluate_policy]
    | true =>
      rw [evaluate_policy, evaluate_policy, collectFailReasons_append_aisbom]
  · intro env m
    exact processJob_pass_fail env m
  · intro env m o o'
    rw [processJob_pass_fail, processJob_pass_fail]
    rfl

/-- C7: a job whose member-file set is empty after filtering by the
supported-extension allowlist is marked FAILED with fail_reason exactly
"No model files found", and no tool is invoked: zero ToolResult records are
produced. -/
theorem empty_model_files_fails_no_tools (env : PipelineEnv) (m : JobMeta)
    (h : (filteredFiles env).isEmpty = true) :
    (processJob env m).1.status = JobStatus.failed ∧
    (processJob env m).1.fail_reason = some "No model files found" ∧
    (processJob env m).2 = [] := by
  simp [processJob, h]

/-- A tool oracle outcome with no findings. -/
def sampleToolOutput : ToolOutput := { version := "v", exit_code := 0, findings := [] }

/-- A pipeline environment whose upload directory holds no supported model
file. -/
def noModelFilesEnv : PipelineEnv :=
  { files := ["notes.txt", "README"], options := {},
    modelscanOut := fun _ => sampleToolOutput,
    picklescanOut := fun _ => sampleToolOutput,
    aisbomOut := sampleToolOutput, finish_time := 5 }

/-- Identity data of a sample job. -/
def sampleMeta : JobMeta :=
  { job_id := "job-1", filename := "notes.txt", file_extension := ".txt",
    sha256 := "h", file_size := 1, started_at := 0 }

/-- Witness for the empty-member-file claim at a concrete job. -/
theorem empty_model_files_fails_no_tools_witness :
    (processJob noModelFilesEnv sampleMeta).1.status = JobStatus.failed ∧
    (processJob noModelFilesEnv sampleMeta).1.fail_reason = some "No model files found" ∧
    (processJob noModelFilesEnv sampleMeta).2 = [] :=
  empty_model_files_fails_no_tools noModelFilesEnv sampleMeta (by decide)

/-- C8: for every job the sum of the per-severity counts equals
total_findings, which equals the length of the full aggregated findings
sequence of all produced tool results (including the SBOM result when it
ran), and top_findings is exactly the first 20 findings of that aggregate. -/
theorem aggregation_counts_consistent (env : PipelineEnv) (m : JobMeta) :
    dictSum (processJob env m).1.findings_by_severity = (processJob env m).1.total_findings ∧
    (processJob env m).1.total_findings = (allFindings (processJob env m).2).length ∧
    (processJob env m).1.top_findings = (allFindings (processJob env m).2).take 20 := by
  by_cases h : (filteredFiles env).isEmpty = true
  · simp [processJob, h, initialSummary, allFindings, dictSum]
  · have h' : (filteredFiles env).isEmpty = false := by
      revert h; cases (filteredFiles env).isEmpty <;> simp
    simp only [processJob, h', Bool.false_eq_true, if_false]
    refine ⟨dictSum_severityCounts _, ?_, ?_⟩ <;> trivial

/-! ## Claim theorems: artifact lookup -/

/-- C10: an artifact name containing the substring ".." or the character "/"
is rejected with an absent result; any returned path is exactly the given
name as one single segment directly inside the job's results directory and
is an existing regular file, so the artifact interface never resolves a file
outside a job's results directory. -/
theorem artifact_path_confined (fs : List (List String)) (job_id artifact_name : String) :
    ((strContainsSub artifact_name ".." || strContainsSub artifact_name "/") = true →
      get_artifact_path fs job_id artifact_name = none)
    ∧ (∀ p, get_artifact_path fs job_id artifact_name = some p →
        strContainsSub artifact_name ".." = false ∧
        strContainsSub artifact_name "/" = false ∧
        p = RESULTS_DIR ++ [job_id, artifact_name] ∧
        fs.contains p = true) := by
  constructor
  · intro h
    simp [get_artifact_path, h]
  · intro p hp
    simp only [get_artifact_path] at hp
    by_cases hbad : (strContainsSub artifact_name ".." || strContainsSub artifact_name "/") = true
    · rw [if_pos hbad] at hp
      exact Option.noConfusion hp
    · have hbad' : (strContainsSub artifact_name ".." || strContainsSub artifact_name "/") = false := by
        revert hbad
        cases strContainsSub artifact_name ".." || strContainsSub artifact_name "/" <;> simp
      rw [if_neg hbad] at hp
      by_cases hc : fs.contains (RESULTS_DIR ++ [job_id, artifact_name]) = true
      · rw [if_pos hc] at hp
        injection hp with hXp
        obtain ⟨h1, h2⟩ := Bool.or_eq_false_iff.mp hbad'
        subst hXp
        exact ⟨h1, h2, rfl, hc⟩
      · rw [if_neg hc] at hp
        exact Option.noConfusion hp

/-- Witness for the artifact-lookup claim at concrete inputs: a traversal
name is rejected, and a plain name resolves to the file inside the job's
results directory. -/
theorem artifact_path_confined_witness :
    get_artifact_path [["data", "results", "j1", "summary.json"]] "j1" "../x" = none ∧
    (strContainsSub "summary.json" ".." = false ∧
     strContainsSub "summary.json" "/" = false ∧
     ["data", "results", "j1", "summary.json"] = RESULTS_DIR ++ ["j1", "summary.json"] ∧
     ([["data", "results", "j1", "summary.json"]] : List (List String)).contains
       ["data", "results", "j1", "summary.json"] = true) :=
  ⟨(artifact_path_confined [["data", "results", "j1", "summary.json"]] "j1" "../x").1
     (by decide),
   (artifact_path_confined [["data", "results", "j1", "summary.json"]] "j1" "summary.json").2
     ["data", "results", "j1", "summary.json"] (by decide)⟩

/-! ## Dictionary lemmas -/

lemma lookupD_upsertD_self {β : Type} (l : List (String × β)) (k : String) (v : β) :
    lookupD (upsertD l k v) k = some v := by
  induction l with
  | nil => simp [upsertD, lookupD]
  | cons p rest ih =>
    unfold upsertD
    split_ifs with h
    · simp [lookupD]
    · simp [lookupD, h, ih]

lemma lookupD_upsertD_ne {β : Type} (l : List (String × β)) (k k' : String) (v : β)
    (h : k' ≠ k) : lookupD (upsertD l k v) k' = lookupD l k' := by
  have hkk : ¬ k = k' := fun he => h he.symm
  induction l with
  | nil => simp [upsertD, lookupD, hkk]
  | cons p rest ih =>
    unfold upsertD
    split_ifs with hpk
    · have hp' : ¬ p.1 = k' := by rw [hpk]; exact hkk
      simp [lookupD, hkk, hp']
    · simp [lookupD, ih]

lemma mem_keys_of_lookupD_some {β : Type} {l : List (String × β)} {k : String} {v : β}
    (h : lookupD l k = some v) : k ∈ l.map Prod.fst := by
  induction l with
  | nil => simp [lookupD] at h
  | cons p rest ih =>
    unfold lookupD at h
    split_ifs at h with hpk
    · simp [← hpk]
    · simp [ih h]

lemma mem_of_lookupD_some {β : Type} {l : List (String × β)} {k : String} {v : β}
    (h : lookupD l k = some v) : (k, v) ∈ l := by
  induction l with
  | nil => simp [lookupD] at h
  | cons p rest ih =>
    unfold lookupD at h
    split_ifs at h with hpk
    · injection h with hv
      have hp : p = (k, v) := Prod.ext hpk hv
      rw [← hp]
      exact List.mem_cons_self p rest
    · exact List.mem_cons_of_mem p (ih h)

lemma lookupD_of_mem_nodup {β : Type} {l : List (String × β)} {p : String × β}
    (hnd : (l.map Prod.fst).Nodup) (hmem : p ∈ l) : lookupD l p.1 = some p.2 := by
  induction l with
  | nil => simp at hmem
  | cons q rest ih =>
    rcases List.mem_cons.mp hmem with h | h
    · rw [h]
      simp [lookupD]
    · have hq : q.1 ≠ p.1 := by
        intro he
        have : p.1 ∈ rest.map Prod.fst := List.mem_map.mpr ⟨p, h, rfl⟩
        rw [← he] at this
        exact (List.nodup_cons.mp (by simpa using hnd)).1 this
      unfold lookupD
      rw [if_neg hq]
      exact ih (by simpa using (List.nodup_cons.mp (by simpa using hnd)).2) h

lemma keys_upsertD_mem {β : Type} (l : List (String × β)) (k : String) (v : β)
    (h : k ∈ l.map Prod.fst) : (upsertD l k v).map Prod.fst = l.map Prod.fst := by
  induction l with
  | nil => simp at h
  | cons p rest ih =>
    unfold upsertD
    split_ifs with hpk
    · simp [hpk]
    · have h' : k ∈ rest.map Prod.fst := by
        rcases List.mem_map.mp h with ⟨q, hq, hqk⟩
        rcases List.mem_cons.mp hq with hq' | hq'
        · exact absurd (hq' ▸ hqk) hpk
        · exact List.mem_map.mpr ⟨q, hq', hqk⟩
      simp [ih h']

lemma keys_upsertD_not_mem {β : Type} (l : List (String × β)) (k : String) (v : β)
    (h : k ∉ l.map Prod.fst) : (upsertD l k v).map Prod.fst = l.map Prod.fst ++ [k] := by
  induction l with
  | nil => simp [upsertD]
  | cons p rest ih =>
    unfold upsertD
    split_ifs with hpk
    · exact absurd (by simp [hpk]) h
    · have h' : k ∉ rest.map Prod.fst := fun hm => h (by simp [hm])
      simp [ih h']

lemma lookupD_filter_self {β : Type} (l : List (String × β)) (k : String) :
    lookupD (l.filter (fun p => !(p.1 == k))) k = none := by
  induction l with
  | nil => simp [lookupD]
  | cons p rest ih =>
    by_cases hpk : p.1 = k
    · simp [List.filter_cons, hpk, ih]
    · simp [List.filter_cons, hpk, lookupD, ih]

lemma lookupD_filter_ne {β : Type} (l : List (String × β)) (k k' : String) (h : k' ≠ k) :
    lookupD (l.filter (fun p => !(p.1 == k))) k' = lookupD l k' := by
  induction l with
  | nil => simp
  | cons p rest ih =>
    by_cases hpk : p.1 = k
    · have hkk : ¬ k = k' := fun he => h he.symm
      have hp' : ¬ p.1 = k' := by rw [hpk]; exact hkk
      simp [List.filter_cons, hpk, lookupD, hp', hkk, ih]
    · simp [List.filter_cons, hpk, lookupD, ih]

/-! ## Worker-pool lemmas -/

lemma busyIds_nil : busyIds [] = [] := rfl

lemma busyIds_cons_idle (ws : List WStatus) :
    busyIds (WStatus.idle :: ws) = busyIds ws := by
  simp [busyIds, List.filterMap_cons]

lemma busyIds_cons_busy (id : String) (ws : List WStatus) :
    busyIds (WStatus.busy id :: ws) = id :: busyIds ws := by
  simp [busyIds, List.filterMap_cons]

lemma busyIds_replicate_idle (n : Nat) : busyIds (List.replicate n WStatus.idle) = [] := by
  induction n with
  | zero => rfl
  | succ n ih => rw [List.replicate_succ, busyIds_cons_idle, ih]

lemma length_busyIds_le (ws : List WStatus) : (busyIds ws).length ≤ ws.length :=
  List.length_filterMap_le _ _

lemma mem_busyIds {ws : List WStatus} {id : String} :
    id ∈ busyIds ws ↔ WStatus.busy id ∈ ws := by
  unfold busyIds
  rw [List.mem_filterMap]
  constructor
  · rintro ⟨w, hw, hf⟩
    cases w with
    | idle => simp at hf
    | busy j =>
      simp at hf
      rw [← hf]
      exact hw
  · intro h
    exact ⟨WStatus.busy id, h, rfl⟩

lemma mem_busyIds_of_getElem {ws : List WStatus} {w : Nat} {id : String}
    (h : ws[w]? = some (WStatus.busy id)) : id ∈ busyIds ws :=
  mem_busyIds.mpr (List.getElem?_mem h)

lemma busyIds_set_busy (ws : List WStatus) (w : Nat) (id : String)
    (h : ws[w]? = some WStatus.idle) :
    List.Perm (busyIds (ws.set w (WStatus.busy id))) (id :: busyIds ws) := by
  induction ws generalizing w with
  | nil => simp at h
  | cons a ws ih =>
    cases w with
    | zero =>
      rw [List.getElem?_cons_zero] at h
      injection h with h
      subst h
      rw [List.set_cons_zero, busyIds_cons_busy, busyIds_cons_idle]
    | succ w =>
      rw [List.getElem?_cons_succ] at h
      rw [List.set_cons_succ]
      cases a with
      | idle =>
        rw [busyIds_cons_idle, busyIds_cons_idle]
        exact ih w h
      | busy j =>
        rw [busyIds_cons_busy, busyIds_cons_busy]
        exact ((ih w h).cons j).trans (List.Perm.swap id j (busyIds ws))

lemma busyIds_set_idle (ws : List WStatus) (w : Nat) (id : String)
    (h : ws[w]? = some (WStatus.busy id)) :
    List.Perm (busyIds ws) (id :: busyIds (ws.set w WStatus.idle)) := by
  induction ws generalizing w with
  | nil => simp at h
  | cons a ws ih =>
    cases w with
    | zero =>
      rw [List.getElem?_cons_zero] at h
      injection h with h
      subst h
      rw [List.set_cons_zero, busyIds_cons_busy, busyIds_cons_idle]
    | succ w =>
      rw [List.getElem?_cons_succ] at h
      rw [List.set_cons_succ]
      cases a with
      | idle =>
        rw [busyIds_cons_idle, busyIds_cons_idle]
        exact ih w h
      | busy j =>
        rw [busyIds_cons_busy, busyIds_cons_busy]
        exact ((ih w h).cons j).trans (List.Perm.swap id j (busyIds (ws.set w WStatus.idle)))

/-! ## Scheduler invariant -/

/-- Inductive invariant of the scheduler, relative to the worker count W and
the recovered job index R. -/
structure SchedInv (W : Nat) (R : List (String × JobStatus)) (s : SchedState) : Prop where
  lenW : s.workers.length = W
  nd : (s.queue ++ busyIds s.workers).Nodup
  act_used : ∀ id ∈ s.queue ++ busyIds s.workers, id ∈ s.used
  keys_used : ∀ id ∈ s.jobs.map Prod.fst, id ∈ s.used
  keys_nd : (s.jobs.map Prod.fst).Nodup
  run_busy : ∀ id, lookupD s.jobs id = some JobStatus.running →
    id ∈ busyIds s.workers ∨ (id, JobStatus.running) ∈ R
  rec_frozen : ∀ p ∈ R, p.1 ∉ s.queue ∧ p.1 ∉ busyIds s.workers ∧
    (lookupD s.jobs p.1 = some p.2 ∨ lookupD s.jobs p.1 = none)
  rec_used : ∀ p ∈ R, p.1 ∈ s.used

lemma schedInv_init (W : Nat) (R : List (String × JobStatus))
    (hnd : (R.map Prod.fst).Nodup) : SchedInv W R (initSched W R) := by
  refine ⟨?_, ?_, ?_, ?_, ?_, ?_, ?_, ?_⟩
  · exact List.length_replicate W WStatus.idle
  · simp [initSched, busyIds_replicate_idle]
  · simp [initSched, busyIds_replicate_idle]
  · intro id h
    simpa [initSched] using h
  · exact hnd
  · intro id h
    exact Or.inr (mem_of_lookupD_some h)
  · intro p hp
    refine ⟨by simp [initSched], by simp [initSched, busyIds_replicate_idle], Or.inl ?_⟩
    exact lookupD_of_mem_nodup hnd hp
  · intro p hp
    simp only [initSched]
    exact List.mem_map.mpr ⟨p, hp, rfl⟩

lemma schedInv_step {W : Nat} {R : List (String × JobStatus)} {s s' : SchedState}
    (hInv : SchedInv W R s) (hstep : SchedStep s s') : SchedInv W R s' := by
  obtain ⟨lenW, nd, act_used, keys_used, keys_nd, run_busy, rec_frozen, rec_used⟩ := hInv
  cases hstep with
  | submit id hid =>
    have hid_not_act : id ∉ s.queue ++ busyIds s.workers := fun hmem => hid (act_used id hmem)
    have hid_not_keys : id ∉ s.jobs.map Prod.fst := fun hmem => hid (keys_used id hmem)
    have hperm : List.Perm ((s.queue ++ [id]) ++ busyIds s.workers)
        (id :: (s.queue ++ busyIds s.workers)) := by
      rw [List.append_assoc, List.singleton_append]
      exact List.perm_middle
    refine ⟨lenW, ?_, ?_, ?_, ?_, ?_, ?_, ?_⟩
    · exact hperm.nodup_iff.mpr (List.nodup_cons.mpr ⟨hid_not_act, nd⟩)
    · intro x hx
      rcases List.mem_cons.mp (hperm.mem_iff.mp hx) with hx | hx
      · rw [hx]
        exact List.mem_append_right s.used (List.mem_singleton_self id)
      · exact List.mem_append_left _ (act_used x hx)
    · intro x hx
      rw [keys_upsertD_not_mem _ _ _ hid_not_keys] at hx
      rcases List.mem_append.mp hx with hx | hx
      · exact List.mem_append_left _ (keys_used x hx)
      · simp only [List.mem_singleton] at hx
        rw [hx]
        exact List.mem_append_right s.used (List.mem_singleton_self id)
    · rw [keys_upsertD_not_mem _ _ _ hid_not_keys]
      rw [List.nodup_append]
      refine ⟨keys_nd, List.nodup_singleton id, ?_⟩
      intro x hx hx'
      simp only [List.mem_singleton] at hx'
      rw [hx'] at hx
      exact hid_not_keys hx
    · intro x hx
      by_cases hxy : x = id
      · rw [hxy, lookupD_upsertD_self] at hx
        exact absurd hx (by simp)
      · rw [lookupD_upsertD_ne _ _ _ _ hxy] at hx
        exact run_busy x hx
    · intro p hp
      obtain ⟨hq, hb, hl⟩ := rec_frozen p hp
      have hpid : p.1 ≠ id := fun he => hid (he ▸ rec_used p hp)
      refine ⟨?_, hb, ?_⟩
      · intro hmem
        rcases List.mem_append.mp hmem with hm | hm
        · exact hq hm
        · simp only [List.mem_singleton] at hm
          exact hpid hm
      · rw [lookupD_upsertD_ne _ _ _ _ hpid]
        exact hl
    · intro p hp
      exact List.mem_append_left _ (rec_used p hp)
  | dequeue w id rest hq hw =>
    have hperm : List.Perm (busyIds (s.workers.set w (WStatus.busy id)))
        (id :: busyIds s.workers) := busyIds_set_busy _ _ _ hw
    have hqperm : List.Perm (rest ++ busyIds (s.workers.set w (WStatus.busy id)))
        (s.queue ++ busyIds s.workers) := by
      have h1 : List.Perm (rest ++ busyIds (s.workers.set w (WStatus.busy id)))
          (rest ++ (id :: busyIds s.workers)) := hperm.append_left rest
      have h2 : List.Perm (rest ++ (id :: busyIds s.workers))
          (id :: (rest ++ busyIds s.workers)) := List.perm_middle
      have h3 : id :: (rest ++ busyIds s.workers) = s.queue ++ busyIds s.workers := by
        rw [hq, List.cons_append]
      rw [← h3]
      exact h1.trans h2
    refine ⟨?_, ?_, ?_, keys_used, keys_nd, ?_, ?_, rec_used⟩
    · rw [List.length_set]
      exact lenW
    · exact hqperm.nodup_iff.mpr nd
    · intro x hx
      exact act_used x (hqperm.mem_iff.mp hx)
    · intro x hx
      rcases run_busy x hx with hb | hr
      · exact Or.inl (hperm.mem_iff.mpr (List.mem_cons_of_mem id hb))
      · exact Or.inr hr
    · intro p hp
      obtain ⟨hqmem, hb, hl⟩ := rec_frozen p hp
      have hpid : p.1 ≠ id := by
        intro he
        apply hqmem
        rw [hq, he]
        exact List.mem_cons_self id rest
      refine ⟨?_, ?_, hl⟩
      · intro hm
        apply hqmem
        rw [hq]
        exact List.mem_cons_of_mem id hm
      · intro hm
        rcases List.mem_cons.mp (hperm.mem_iff.mp hm) with hm' | hm'
        · exact hpid hm'
        · exact hb hm'
  | markRunning w id st hw hs =>
    have hidb : id ∈ busyIds s.workers := mem_busyIds_of_getElem hw
    have hidk : id ∈ s.jobs.map Prod.fst := mem_keys_of_lookupD_some hs
    refine ⟨lenW, nd, act_used, ?_, ?_, ?_, ?_, rec_used⟩
    · intro x hx
      rw [keys_upsertD_mem _ _ _ hidk] at hx
      exact keys_used x hx
    · rw [keys_upsertD_mem _ _ _ hidk]
      exact keys_nd
    · intro x hx
      by_cases hxy : x = id
      · rw [hxy]
        exact Or.inl hidb
      · rw [lookupD_upsertD_ne _ _ _ _ hxy] at hx
        exact run_busy x hx
    · intro p hp
      obtain ⟨hq, hb, hl⟩ := rec_frozen p hp
      have hpid : p.1 ≠ id := fun he => hb (he ▸ hidb)
      refine ⟨hq, hb, ?_⟩
      rw [lookupD_upsertD_ne _ _ _ _ hpid]
      exact hl
  | finishJob w id t hw ht =>
    have hidb : id ∈ busyIds s.workers := mem_busyIds_of_getElem hw
    have hperm : List.Perm (busyIds s.workers)
        (id :: busyIds (s.workers.set w WStatus.idle)) := busyIds_set_idle _ _ _ hw
    have hbig : List.Perm (s.queue ++ busyIds s.workers)
        (id :: (s.queue ++ busyIds (s.workers.set w WStatus.idle))) :=
      (hperm.append_left s.queue).trans List.perm_middle
    have hid_used : id ∈ s.used :=
      act_used id (List.mem_append_right s.queue hidb)
    refine ⟨?_, ?_, ?_, ?_, ?_, ?_, ?_, rec_used⟩
    · rw [List.length_set]
      exact lenW
    · exact (List.nodup_cons.mp (hbig.nodup_iff.mp nd)).2
    · intro x hx
      exact act_used x (hbig.mem_iff.mpr (List.mem_cons_of_mem id hx))
    · intro x hx
      by_cases hmem : id ∈ s.jobs.map Prod.fst
      · rw [keys_upsertD_mem _ _ _ hmem] at hx
        exact keys_used x hx
      · rw [keys_upsertD_not_mem _ _ _ hmem] at hx
        rcases List.mem_append.mp hx with hx | hx
        · exact keys_used x hx
        · simp only [List.mem_singleton] at hx
          rw [hx]
          exact hid_used
    · by_cases hmem : id ∈ s.jobs.map Prod.fst
      · rw [keys_upsertD_mem _ _ _ hmem]
        exact keys_nd
      · rw [keys_upsertD_not_mem _ _ _ hmem]
        rw [List.nodup_append]
        refine ⟨keys_nd, List.nodup_singleton id, ?_⟩
        intro x hx hx'
        simp only [List.mem_singleton] at hx'
        rw [hx'] at hx
        exact hmem hx
    · intro x hx
      by_cases hxy : x = id
      · rw [hxy, lookupD_upsertD_self] at hx
        injection hx with hx
        rcases ht with ht | ht <;> (rw [ht] at hx; exact absurd hx (by simp))
      · rw [lookupD_upsertD_ne _ _ _ _ hxy] at hx
        rcases run_busy x hx with hb | hr
        · rcases List.mem_cons.mp (hperm.mem_iff.mp hb) with hb' | hb'
          · exact absurd hb' hxy
          · exact Or.inl hb'
        · exact Or.inr hr
    · intro p hp
      obtain ⟨hq, hb, hl⟩ := rec_frozen p hp
      have hpid : p.1 ≠ id := fun he => hb (he ▸ hidb)
      refine ⟨hq, ?_, ?_⟩
      · intro hm
        exact hb (hperm.mem_iff.mpr (List.mem_cons_of_mem id hm))
      · rw [lookupD_upsertD_ne _ _ _ _ hpid]
        exact hl
  | releaseMissing w id hw hs =>
    have hidb : id ∈ busyIds s.workers := mem_busyIds_of_getElem hw
    have hperm : List.Perm (busyIds s.workers)
        (id :: busyIds (s.workers.set w WStatus.idle)) := busyIds_set_idle _ _ _ hw
    have hbig : List.Perm (s.queue ++ busyIds s.workers)
        (id :: (s.queue ++ busyIds (s.workers.set w WStatus.idle))) :=
      (hperm.append_left s.queue).trans List.perm_middle
    refine ⟨?_, ?_, ?_, keys_used, keys_nd, ?_, ?_, rec_used⟩
    · rw [List.length_set]
      exact lenW
    · exact (List.nodup_cons.mp (hbig.nodup_iff.mp nd)).2
    · intro x hx
      exact act_used x (hbig.mem_iff.mpr (List.mem_cons_of_mem id hx))
    · intro x hx
      have hxy : x ≠ id := by
        intro he
        rw [he, hs] at hx
        exact Option.noConfusion hx
      rcases run_busy x hx with hb | hr
      · rcases List.mem_cons.mp (hperm.mem_iff.mp hb) with hb' | hb'
        · exact absurd hb' hxy
        · exact Or.inl hb'
      · exact Or.inr hr
    · intro p hp
      obtain ⟨hq, hb, hl⟩ := rec_frozen p hp
      refine ⟨hq, ?_, hl⟩
      intro hm
      exact hb (hperm.mem_iff.mpr (List.mem_cons_of_mem id hm))
  | deleteJob id =>
    have hkeys : ((s.jobs.filter (fun p => !(p.1 == id))).map Prod.fst).Sublist
        (s.jobs.map Prod.fst) := (List.filter_sublist s.jobs).map Prod.fst
    refine ⟨lenW, nd, act_used, ?_, ?_, ?_, ?_, rec_used⟩
    · intro x hx
      exact keys_used x (hkeys.subset hx)
    · exact keys_nd.sublist hkeys
    · intro x hx
      by_cases hxy : x = id
      · rw [hxy, lookupD_filter_self] at hx
        exact Option.noConfusion hx
      · rw [lookupD_filter_ne _ _ _ hxy] at hx
        exact run_busy x hx
    · intro p hp
      obtain ⟨hq, hb, hl⟩ := rec_frozen p hp
      refine ⟨hq, hb, ?_⟩
      by_cases hpid : p.1 = id
      · rw [hpid, lookupD_filter_self]
        exact Or.inr rfl
      · rw [lookupD_filter_ne _ _ _ hpid]
        exact hl

lemma schedInv_reach {W : Nat} {R : List (String × JobStatus)} {s : SchedState}
    (hnd : (R.map Prod.fst).Nodup) (h : SchedReach (initSched W R) s) :
    SchedInv W R s := by
  induction h with
  | refl => exact schedInv_init W R hnd
  | tail _ hs ih => exact schedInv_step ih hs

/-! ## Claim theorems: the scheduler -/

/-- C1: starting from a startup state whose recovered index contains no
RUNNING record (in particular a fresh, empty one), in every reachable
scheduler state the number of jobs simultaneously in RUNNING status never
exceeds the worker count W, however many jobs are submitted; the W worker
loops are the only admission mechanism in the transition system. -/
theorem running_jobs_le_worker_count (W : Nat) (R : List (String × JobStatus))
    (s : SchedState) (hnd : (R.map Prod.fst).Nodup)
    (hR : ∀ p ∈ R, p.2 ≠ JobStatus.running)
    (hreach : SchedReach (initSched W R) s) :
    countRunningJobs s ≤ W := by
  have hInv := schedInv_reach hnd hreach
  have hsub : (s.jobs.filter (fun p => p.2 == JobStatus.running)).map Prod.fst ⊆
      busyIds s.workers := by
    intro x hx
    rcases List.mem_map.mp hx with ⟨p, hpmem, hpx⟩
    have hpf := List.mem_filter.mp hpmem
    have hp2 : p.2 = JobStatus.running := by simpa using hpf.2
    have hlook : lookupD s.jobs p.1 = some p.2 := lookupD_of_mem_nodup hInv.keys_nd hpf.1
    rw [hp2] at hlook
    rcases hInv.run_busy p.1 hlook with hb | hr
    · rw [← hpx]
      exact hb
    · exact absurd rfl (hR (p.1, JobStatus.running) hr)
  have hnodup : ((s.jobs.filter (fun p => p.2 == JobStatus.running)).map Prod.fst).Nodup :=
    hInv.keys_nd.sublist ((List.filter_sublist s.jobs).map Prod.fst)
  have h1 : countRunningJobs s =
      ((s.jobs.filter (fun p => p.2 == JobStatus.running)).map Prod.fst).length := by
    simp [countRunningJobs]
  rw [h1]
  have h2 := (List.subperm_of_subset hnodup hsub).length_le
  have h3 := length_busyIds_le s.workers
  rw [hInv.lenW] at h3
  exact h2.trans h3

/-- Witness for the concurrency bound at the fresh startup state with the
default worker count 2. -/
theorem running_jobs_le_worker_count_witness :
    countRunningJobs (initSched 2 []) ≤ 2 :=
  running_jobs_le_worker_count 2 [] (initSched 2 []) (by simp)
    (by intro p hp; simp at hp) Relation.ReflTransGen.refl

/-- C9: a job recovered from disk at startup with non-terminal status is
never enqueued, never held by any worker, and keeps exactly its recovered
status in every reachable state for as long as its record exists — it never
reaches a terminal status unless it is deleted. -/
theorem recovered_jobs_never_processed (W : Nat) (R : List (String × JobStatus))
    (s : SchedState) (hnd : (R.map Prod.fst).Nodup)
    (hreach : SchedReach (initSched W R) s) :
    ∀ p ∈ R, (p.2 = JobStatus.queued ∨ p.2 = JobStatus.running) →
      p.1 ∉ s.queue ∧ p.1 ∉ busyIds s.workers ∧
      (∀ st, lookupD s.jobs p.1 = some st → st = p.2) := by
  intro p hp _
  have hInv := schedInv_reach hnd hreach
  obtain ⟨h1, h2, h3⟩ := hInv.rec_frozen p hp
  refine ⟨h1, h2, ?_⟩
  intro st hst
  rcases h3 with h | h
  · rw [h] at hst
    injection hst with hst
    exact hst.symm
  · rw [h] at hst
    exact Option.noConfusion hst

/-- Witness for the recovery claim: a job recovered in RUNNING status stays
untouched in the startup state of a one-worker scheduler. -/
theorem recovered_jobs_never_processed_witness :
    "a" ∉ (initSched 1 [("a", JobStatus.running)]).queue ∧
    "a" ∉ busyIds (initSched 1 [("a", JobStatus.running)]).workers ∧
    (∀ st, lookupD (initSched 1 [("a", JobStatus.running)]).jobs "a" = some st →
      st = JobStatus.running) :=
  recovered_jobs_never_processed 1 [("a", JobStatus.running)] _ (by simp)
    Relation.ReflTransGen.refl ("a", JobStatus.running) (by simp) (Or.inr rfl)

/-! ## Claim theorems: the observable job record -/

lemma c2Inv_init (m : JobMeta) (opts : JobOptions) : C2Inv (initJobObs m opts) := by
  refine ⟨?_, ?_, ?_⟩
  · simp [initJobObs, initialSummary]
  · simp [initJobObs, initialSummary]
  · simp [initJobObs, initialSummary]

lemma c2Inv_step {a b : JobObs} (hstep : JobStep a b) (hInv : C2Inv a) : C2Inv b := by
  obtain ⟨h1, h2, h3⟩ := hInv
  cases hstep with
  | start ho =>
    rw [ho] at h1
    refine ⟨?_, h2, ?_⟩
    · simp at h1 ⊢
      exact h1
    · rintro ⟨hs, _⟩
      exact absurd hs (by simp)
  | scanUpdate ho hp tr tv fbt =>
    refine ⟨h1, ?_, ?_⟩
    · rw [hp] at h2
      exact h2
    · intro hcon
      exact h3 ⟨hcon.1, hp⟩
  | failJob ho hp e t =>
    refine ⟨by simp, ?_, ?_⟩
    · rw [hp] at h2
      exact h2
    · intro _
      refine ⟨?_, by simp⟩
      rw [hp] at h2
      have hns : ¬ a.summary.pass_fail.isSome = true := by
        rw [h2]
        simp
      exact Option.not_isSome_iff_eq_none.mp hns
  | policyEval ho hp results strict =>
    refine ⟨?_, by simp, ?_⟩
    · exact h1
    · rintro ⟨_, hpe⟩
      exact absurd hpe (by simp)
  | postPolicyUpdate ho hp tr tv fbt tot fbs top =>
    refine ⟨h1, ?_, ?_⟩
    · rw [hp] at h2
      exact h2
    · rintro ⟨_, hpe⟩
      exact absurd hpe (by simp)
  | failLate ho hp e t =>
    refine ⟨by simp, ?_, ?_⟩
    · rw [hp] at h2
      exact h2
    · rintro ⟨_, hpe⟩
      exact absurd hpe (by simp)
  | finalize ho hp v hv t =>
    refine ⟨?_, ?_, ?_⟩
    · constructor
      · intro _
        cases hvp : (v == "PASS") with
        | true => exact Or.inl (by simp [hvp])
        | false => exact Or.inr (by simp [hvp])
      · intro _
        simp
    · rw [hp] at h2
      simp [hv]
    · rintro ⟨_, hpe⟩
      exact absurd hpe (by simp)

/-- C2: in every observable state of a job's record, finished_at is present
exactly when the status is terminal, pass_fail is present exactly when
policy evaluation has executed for the job, and an execution failure before
policy evaluation left pass_fail absent and set fail_reason. -/
theorem job_record_finished_pass_fail_inv (m : JobMeta) (opts : JobOptions) (o : JobObs)
    (h : JobReach (initJobObs m opts) o) : C2Inv o := by
  induction h with
  | refl => exact c2Inv_init m opts
  | tail _ hs ih => exact c2Inv_step hs ih

/-- Witness for the record invariant at a freshly created job. -/
theorem job_record_finished_pass_fail_inv_witness :
    C2Inv (initJobObs sampleMeta {}) :=
  job_record_finished_pass_fail_inv sampleMeta {} _ Relation.ReflTransGen.refl

lemma jobStep_not_terminal {a b : JobObs} (h : JobStep a b) :
    a.summary.status = JobStatus.queued ∨ a.summary.status = JobStatus.running := by
  cases h with
  | start ho => exact Or.inl ho
  | scanUpdate ho hp tr tv fbt => exact Or.inr ho
  | failJob ho hp e t => exact Or.inr ho
  | policyEval ho hp results strict => exact Or.inr ho
  | postPolicyUpdate ho hp tr tv fbt tot fbs top => exact Or.inr ho
  | failLate ho hp e t => exact Or.inr ho
  | finalize ho hp v hv t => exact Or.inr ho

lemma jobStep_rank_mono {a b : JobObs} (h : JobStep a b) :
    statusRank a.summary.status ≤ statusRank b.summary.status := by
  cases h with
  | start ho => rw [ho]; exact Nat.le_of_lt Nat.zero_lt_one
  | scanUpdate ho hp tr tv fbt => exact Nat.le_refl _
  | failJob ho hp e t => rw [ho]; exact Nat.le_succ 1
  | policyEval ho hp results strict => exact Nat.le_refl _
  | postPolicyUpdate ho hp tr tv fbt tot fbs top => exact Nat.le_refl _
  | failLate ho hp e t => rw [ho]; exact Nat.le_succ 1
  | finalize ho hp v hv t =>
    rw [ho]
    cases hvp : (v == "PASS") with
    | true => simp [hvp, statusRank]
    | false => simp [hvp, statusRank]

/-- C3: every job's observable record is created in QUEUED, its status rank
is monotone non-decreasing along every step and every reachable path of the
lifecycle QUEUED, RUNNING, terminal, and from a terminal record no further
transition exists at all, so no operation ever moves a terminal job back to
a non-terminal status. -/
theorem job_status_monotone :
    (∀ (m : JobMeta) (opts : JobOptions),
        (initJobObs m opts).summary.status = JobStatus.queued)
    ∧ (∀ a b : JobObs, JobReach a b →
        statusRank a.summary.status ≤ statusRank b.summary.status)
    ∧ (∀ a b : JobObs,
        (a.summary.status = JobStatus.succeeded ∨ a.summary.status = JobStatus.failed) →
        JobReach a b → b = a) := by
  refine ⟨fun m opts => rfl, ?_, ?_⟩
  · intro a b h
    induction h with
    | refl => exact Nat.le_refl _
    | tail _ hs ih => exact ih.trans (jobStep_rank_mono hs)
  · intro a b hterm h
    rcases h.cases_head with heq | ⟨c, hac, _⟩
    · exact heq.symm
    · rcases jobStep_not_terminal hac with hnt | hnt <;>
        rcases hterm with ht | ht <;> (rw [ht] at hnt; simp at hnt)

/-- A job record that has reached the SUCCEEDED terminal status. -/
def terminalObs : JobObs :=
  { summary := { initialSummary sampleMeta {} with status := JobStatus.succeeded },
    policyEvaluated := true }

/-- Witness for the lifecycle claim: rank monotonicity along the empty path
from a fresh record, and immobility of a terminal record. -/
theorem job_status_monotone_witness :
    statusRank (initJobObs sampleMeta {}).summary.status ≤
      statusRank (initJobObs sampleMeta {}).summary.status ∧
    terminalObs = terminalObs :=
  ⟨job_status_monotone.2.1 (initJobObs sampleMeta {}) (initJobObs sampleMeta {})
     Relation.ReflTransGen.refl,
   job_status_monotone.2.2 terminalObs terminalObs (Or.inl rfl) Relation.ReflTransGen.refl⟩
